import Mathlib

/-!
# Verification of the sultan-cosmos-bridge ledger/consensus core

The repository exposes its core through the C interface in
`include/sultan_bridge.h`: a deterministic transactional ledger with a block
builder (`sultan_blockchain_*`), a stake-weighted validator set
(`sultan_consensus_*`), and a handle registry mediating every call.  The C
header declares the operations and their error codes; the behavioural
contracts of the operations are given by the specification.  This file embeds
that core shallowly: ledgers, validator sets and the handle registry are
explicit state values, every operation is a pure function returning the new
state together with a `BridgeErrorCode`, and the properties are proved as
theorems about those functions.
-/

/-- Error codes, exactly the `BridgeErrorCode` enum of `sultan_bridge.h`
(values 0..10 in declaration order). -/
inductive BridgeErrorCode where
  | Success
  | NullPointer
  | InvalidUtf8
  | SerializationError
  | DeserializationError
  | BlockchainError
  | ConsensusError
  | TransactionError
  | StateError
  | InvalidParameter
  | InternalError
deriving Repr, DecidableEq

/-- Addresses are opaque unique string tokens. -/
abbrev Address := String

/-- An account: balance and nonce, both unsigned 64-bit in the C interface;
modelled as naturals (the spec states the arithmetic contracts exactly). -/
structure Account where
  balance : Nat
  nonce : Nat
deriving Repr, DecidableEq

/-- The `CTransaction` struct of `sultan_bridge.h`: from-address, to-address,
amount, gas fee, timestamp, nonce, signature.  (`from` is a Lean keyword, so
the two address fields carry an `_addr` suffix.) -/
structure CTransaction where
  from_addr : Address
  to_addr : Address
  amount : Nat
  gas_fee : Nat
  timestamp : Nat
  nonce : Nat
  signature : String
deriving Repr, DecidableEq

/-- A sealed block: height, hash of the previous block, its own hash,
proposer address, and the ordered transactions it contains. -/
structure Block where
  height : Nat
  prev_hash : Nat
  hash : Nat
  validator : Address
  transactions : List CTransaction
deriving Repr, DecidableEq

/-- Association-list lookup keyed by decidable equality; returns the value of
the first binding of the key. -/
def alookup {α β : Type} [DecidableEq α] : List (α × β) → α → Option β
  | [], _ => none
  | (k, v) :: rest, a => if k = a then some v else alookup rest a

/-- Association-list insert-or-update: replaces the first binding of the key,
or appends a fresh binding when the key is absent. -/
def aset {α β : Type} [DecidableEq α] : List (α × β) → α → β → List (α × β)
  | [], a, v => [(a, v)]
  | (k, w) :: rest, a, v =>
      if k = a then (a, v) :: rest else (k, w) :: aset rest a v

/-- Association-list removal of the first binding of a key. -/
def aremove {α β : Type} [DecidableEq α] : List (α × β) → α → List (α × β)
  | [], _ => []
  | (k, v) :: rest, a => if k = a then rest else (k, v) :: aremove rest a

/-- The Ledger: the address→Account mapping, the pool of transactions accepted
since the last block, and the ordered chain of sealed blocks (newest first). -/
structure Ledger where
  accounts : List (Address × Account)
  pending : List CTransaction
  chain : List Block
deriving Repr, DecidableEq

/-- The ledger a fresh `sultan_blockchain_new` handle refers to: no accounts,
no pending transactions, no blocks. -/
def emptyLedger : Ledger := ⟨[], [], []⟩

/-- Balance observable of an address: 0 for a never-created account. -/
def balanceOf (l : Ledger) (a : Address) : Nat :=
  match alookup l.accounts a with
  | some acct => acct.balance
  | none => 0

/-- Nonce observable of an address: 0 for a never-created account. -/
def nonceOf (l : Ledger) (a : Address) : Nat :=
  match alookup l.accounts a with
  | some acct => acct.nonce
  | none => 0

/-- Total supply: the sum of all account balances. -/
def total_supply (l : Ledger) : Nat :=
  (l.accounts.map (fun p => p.2.balance)).sum

/-- Modelled from the spec: the implementation of
`sultan_blockchain_init_account` is not part of the visible sources (the
header only declares it).  Per the spec it creates the account or resets its
balance to the given value, leaves the nonce untouched when the account
already exists, and fails with `InvalidParameter` on an empty address. -/
def init_account (l : Ledger) (addr : Address) (bal : Nat) :
    Ledger × BridgeErrorCode :=
  if addr = "" then (l, .InvalidParameter)
  else
    match alookup l.accounts addr with
    | some acct =>
        ({ l with accounts := aset l.accounts addr { acct with balance := bal } },
         .Success)
    | none =>
        ({ l with accounts := aset l.accounts addr ⟨bal, 0⟩ }, .Success)

/-- Modelled from the spec: the implementation of
`sultan_blockchain_get_balance` is not part of the visible sources.  Per the
spec it returns the balance, 0 for a never-initialized address (absence is a
valid zero state, not an error), and does not modify the ledger; the returned
ledger component makes that absence of side effects explicit. -/
def get_balance (l : Ledger) (addr : Address) :
    Ledger × Nat × BridgeErrorCode :=
  (l, balanceOf l addr, .Success)

/-- Modelled from the spec: the implementation of
`sultan_blockchain_add_transaction` is not part of the visible sources.  Per
the spec it validates that the sender exists, has balance ≥ amount + gas_fee,
and that the transaction nonce equals the sender's current nonce, failing
with `TransactionError` and leaving the ledger unchanged on any violation;
on success it debits the sender by amount + gas_fee, increments the sender's
nonce, credits the receiver by amount (creating the receiver's account on
first credit; the gas fee is burned, credited to no account), and appends the
transaction to the pending pool. -/
def apply_transaction (l : Ledger) (tx : CTransaction) :
    Ledger × BridgeErrorCode :=
  match alookup l.accounts tx.from_addr with
  | none => (l, .TransactionError)
  | some sender =>
      if sender.balance < tx.amount + tx.gas_fee then (l, .TransactionError)
      else if tx.nonce ≠ sender.nonce then (l, .TransactionError)
      else
        let acc1 := aset l.accounts tx.from_addr
          ⟨sender.balance - (tx.amount + tx.gas_fee), sender.nonce + 1⟩
        let recv : Account := (alookup acc1 tx.to_addr).getD ⟨0, 0⟩
        let acc2 := aset acc1 tx.to_addr ⟨recv.balance + tx.amount, recv.nonce⟩
        ({ l with accounts := acc2, pending := l.pending ++ [tx] }, .Success)

/-- Folding `apply_transaction` over a sequence of submitted transactions,
keeping the resulting ledger of each step (accepted or rejected alike). -/
def apply_sequence (l : Ledger) (txs : List CTransaction) : Ledger :=
  txs.foldl (fun s tx => (apply_transaction s tx).1) l

/-- Chain height: the length of the chain of sealed blocks. -/
def chain_height (l : Ledger) : Nat := l.chain.length

/-- Hash of the latest sealed block, with 0 as the genesis sentinel. -/
def latest_hash (l : Ledger) : Nat :=
  match l.chain with
  | [] => 0
  | b :: _ => b.hash

/-- Modelled from the spec: the concrete hash function of the implementation
is not part of the visible sources; the spec requires only a deterministic
function, so a simple 64-bit polynomial combiner stands in for it. -/
def combineHash (a b : Nat) : Nat := (a * 1000003 + b) % (2 ^ 64)

/-- Deterministic hash of a string (64-bit polynomial rolling hash). -/
def stringHash (s : String) : Nat :=
  s.foldl (fun h c => (h * 131 + c.toNat) % (2 ^ 64)) 7

/-- Deterministic hash of a transaction from its fields. -/
def tx_hash (tx : CTransaction) : Nat :=
  combineHash (combineHash (combineHash (combineHash
    (combineHash (stringHash tx.from_addr) (stringHash tx.to_addr))
    tx.amount) tx.gas_fee) tx.timestamp) tx.nonce

/-- Deterministic block hash: a function of exactly (previous hash, height,
validator address, ordered transaction hashes), as the spec requires. -/
def block_hash (prev : Nat) (height : Nat) (validator : Address)
    (tx_hashes : List Nat) : Nat :=
  tx_hashes.foldl combineHash
    (combineHash (combineHash prev height) (stringHash validator))

/-- Modelled from the spec: the implementation of
`sultan_blockchain_create_block` is not part of the visible sources.  Per the
spec it takes all pending transactions, seals them into a block whose hash is
a deterministic function of (previous hash, height, validator address,
ordered transaction hashes), appends the block, clears the pending pool and
increments the height; empty blocks are disallowed (the spec's policy choice),
so an empty pool fails with `BlockchainError`. -/
def create_block (l : Ledger) (validator : Address) :
    Ledger × BridgeErrorCode :=
  if l.pending = [] then (l, .BlockchainError)
  else
    let h := block_hash (latest_hash l) (chain_height l) validator
      (l.pending.map tx_hash)
    let b : Block := ⟨chain_height l, latest_hash l, h, validator, l.pending⟩
    ({ l with chain := b :: l.chain, pending := [] }, .Success)

/-- The ValidatorSet: the address→stake mapping (addresses are unique keys). -/
structure ValidatorSet where
  validators : List (Address × Nat)
deriving Repr, DecidableEq

/-- The validator set a fresh `sultan_consensus_new` handle refers to:
unseeded (no validators). -/
def emptyValidatorSet : ValidatorSet := ⟨[]⟩

/-- Total stake of a validator set. -/
def total_stake (vs : ValidatorSet) : Nat :=
  (vs.validators.map (fun p => p.2)).sum

/-- Modelled from the spec: the implementation of
`sultan_consensus_add_validator` is not part of the visible sources.  Per the
spec it inserts the validator or updates the stake of an existing one, keeping
addresses unique keys, and fails with `InvalidParameter` when the stake is 0
or the address is empty, leaving the set unchanged. -/
def add_validator (vs : ValidatorSet) (addr : Address) (stake : Nat) :
    ValidatorSet × BridgeErrorCode :=
  if addr = "" ∨ stake = 0 then (vs, .InvalidParameter)
  else (⟨aset vs.validators addr stake⟩, .Success)

/-- Stake-weighted walk: spends the index `r` against the stakes in order and
returns the address whose stake interval contains `r`. -/
def pickWeighted : List (Address × Nat) → Nat → Address
  | [], _ => ""
  | [(a, _)], _ => a
  | (a, s) :: rest, r => if r < s then a else pickWeighted rest (r - s)

/-- Modelled from the spec: the implementation of
`sultan_consensus_select_proposer` is not part of the visible sources.  Per
the spec it is a deterministic stake-weighted pick — a pure function of the
validator-set snapshot (the C entry point passes no seed, so the snapshot
itself seeds the pick) — with no side effects, and it fails with
`ConsensusError` when the set is unseeded.  The returned set component makes
the absence of side effects explicit. -/
def select_proposer (vs : ValidatorSet) :
    ValidatorSet × Option Address × BridgeErrorCode :=
  match vs.validators with
  | [] => (vs, none, .ConsensusError)
  | v :: rest =>
      let seed := ((v :: rest).map (fun p => combineHash (stringHash p.1) p.2)).foldl combineHash 0
      (vs, some (pickWeighted (v :: rest) (seed % total_stake vs)), .Success)

/-- An instance owned by the handle registry: a blockchain (Ledger) or a
consensus engine (ValidatorSet). -/
inductive BridgeInstance where
  | blockchain (l : Ledger)
  | consensus (vs : ValidatorSet)

/-- The process-wide handle registry: the next (never-reused) handle value and
the table of live instances keyed by handle. -/
structure Registry where
  next_handle : Nat
  live : List (Nat × BridgeInstance)

/-- The registry right after `sultan_bridge_init`: no live instances; 1 is the
first handle value to hand out (0 is reserved to signal failure). -/
def initRegistry : Registry := ⟨1, []⟩

/-- Modelled from the spec: the handle-allocation step shared by
`sultan_blockchain_new` and `sultan_consensus_new`, whose implementation is
not part of the visible sources.  Per the spec it stores the fresh instance
under the next never-reused positive handle and returns that handle. -/
def reg_new (r : Registry) (inst : BridgeInstance) : Registry × Nat :=
  (⟨r.next_handle + 1, (r.next_handle, inst) :: r.live⟩, r.next_handle)

/-- Modelled from the spec: the implementation of
`sultan_blockchain_destroy` is not part of the visible sources.  Per the spec
it removes and releases the instance; an unknown (never issued or already
destroyed) handle fails with `InvalidParameter` and performs no further
work. -/
def reg_destroy (r : Registry) (h : Nat) : Registry × BridgeErrorCode :=
  match alookup r.live h with
  | some _ => (⟨r.next_handle, aremove r.live h⟩, .Success)
  | none => (r, .InvalidParameter)

/-- Modelled from the spec: handle resolution, the first step of every
handle-taking operation; an unknown handle fails with `InvalidParameter` and
performs no further work. -/
def reg_resolve (r : Registry) (h : Nat) : BridgeErrorCode :=
  match alookup r.live h with
  | some _ => .Success
  | none => .InvalidParameter

/-- The registry-level operations of the C interface: the two allocating
calls, destruction, and any other handle-taking operation (height,
add_transaction, get_balance, …), abstracted to its resolution step. -/
inductive RegOp where
  | newBlockchain
  | newConsensus
  | destroy (h : Nat)
  | useHandle (h : Nat)

/-- One registry operation: the resulting registry, the handle returned (for
the allocating calls), and the error code. -/
def reg_step (r : Registry) (op : RegOp) :
    Registry × Option Nat × BridgeErrorCode :=
  match op with
  | .newBlockchain =>
      ((reg_new r (.blockchain emptyLedger)).1,
       some (reg_new r (.blockchain emptyLedger)).2, .Success)
  | .newConsensus =>
      ((reg_new r (.consensus emptyValidatorSet)).1,
       some (reg_new r (.consensus emptyValidatorSet)).2, .Success)
  | .destroy h => ((reg_destroy r h).1, none, (reg_destroy r h).2)
  | .useHandle h => (r, none, reg_resolve r h)

/-- Running a sequence of registry operations. -/
def reg_run (r : Registry) (ops : List RegOp) : Registry :=
  ops.foldl (fun s op => (reg_step s op).1) r

/-- The handles returned by the allocating calls along a run, in call order. -/
def new_handles (r : Registry) : List RegOp → List Nat
  | [] => []
  | op :: rest =>
      match (reg_step r op).2.1 with
      | some h => h :: new_handles (reg_step r op).1 rest
      | none => new_handles (reg_step r op).1 rest

/-- The registry invariant: the allocation counter is positive, every live
handle is below it, and the live handles are unique keys. -/
def reg_inv (r : Registry) : Prop :=
  0 < r.next_handle
  ∧ (∀ k, alookup r.live k ≠ none → k < r.next_handle)
  ∧ (r.live.map Prod.fst).Nodup

/-- A dead handle: not live, and below the allocation counter, so no later
allocation can ever issue it again. -/
def handle_dead (r : Registry) (h : Nat) : Prop :=
  alookup r.live h = none ∧ h < r.next_handle

/-- The concrete scenario of the spec: alice pays bob 100 with gas fee 1. -/
def txSample : CTransaction := ⟨"alice", "bob", 100, 1, 0, 0, "sig"⟩

/-- The concrete starting ledger of the spec's scenario: alice holds 1000,
bob holds 0. -/
def ledgerSample : Ledger := ⟨[("alice", ⟨1000, 0⟩), ("bob", ⟨0, 0⟩)], [], []⟩

/-- A self-transfer: alice pays alice 3 with gas fee 1. -/
def txSelf : CTransaction := ⟨"alice", "alice", 3, 1, 0, 0, "sig"⟩

/-- A one-account ledger: alice holds 10. -/
def ledgerSelf : Ledger := ⟨[("alice", ⟨10, 0⟩)], [], []⟩

/-- A transaction whose amount and gas fee are valid uint64 values while their
mathematical sum 2^64 exceeds the uint64 range. -/
def txBig : CTransaction := ⟨"alice", "bob", 2 ^ 63, 2 ^ 63, 0, 0, "sig"⟩

theorem alookup_aset {α β : Type} [DecidableEq α] (m : List (α × β)) (a b : α)
    (v : β) :
    alookup (aset m a v) b = if a = b then some v else alookup m b := by
  induction m with
  | nil =>
      by_cases hab : a = b <;> simp [aset, alookup, hab]
  | cons p rest ih =>
      obtain ⟨k, w⟩ := p
      by_cases hka : k = a
      · subst hka
        by_cases hab : k = b <;> simp [aset, alookup, hab]
      · by_cases hkb : k = b <;> by_cases hab : a = b <;>
          simp_all [aset, alookup, hka, hkb, hab]

theorem alookup_eq_none_iff {α β : Type} [DecidableEq α] (m : List (α × β))
    (a : α) :
    alookup m a = none ↔ a ∉ m.map Prod.fst := by
  induction m with
  | nil => simp [alookup]
  | cons p rest ih =>
      obtain ⟨k, w⟩ := p
      by_cases hka : k = a <;> simp_all [alookup, hka, eq_comm]

theorem alookup_aremove_none {α β : Type} [DecidableEq α] (m : List (α × β))
    (a b : α) (h : alookup m b = none) :
    alookup (aremove m a) b = none := by
  induction m with
  | nil => exact h
  | cons p rest ih =>
      obtain ⟨k, w⟩ := p
      by_cases hkb : k = b
      · simp [alookup, hkb] at h
      · simp only [alookup, if_neg hkb] at h
        by_cases hka : k = a
        · simp only [aremove, if_pos hka]
          exact h
        · simp [aremove, alookup, hka, hkb, ih h]

theorem alookup_aremove_self {α β : Type} [DecidableEq α] (m : List (α × β))
    (a : α) (h : (m.map Prod.fst).Nodup) :
    alookup (aremove m a) a = none := by
  induction m with
  | nil => simp [aremove, alookup]
  | cons p rest ih =>
      obtain ⟨k, w⟩ := p
      simp only [List.map_cons, List.nodup_cons] at h
      by_cases hka : k = a
      · subst hka
        simp only [aremove, if_pos rfl]
        exact (alookup_eq_none_iff rest k).2 h.1
      · simp [aremove, alookup, hka, ih h.2]

theorem aremove_sublist {α β : Type} [DecidableEq α] (m : List (α × β))
    (a : α) : (aremove m a).Sublist m := by
  induction m with
  | nil => simp [aremove]
  | cons p rest ih =>
      obtain ⟨k, w⟩ := p
      by_cases hka : k = a
      · simp only [aremove, if_pos hka]
        exact (List.sublist_cons_self (k, w) rest)
      · simp only [aremove, if_neg hka]
        exact ih.cons₂ (k, w)

theorem mem_keys_aset {α β : Type} [DecidableEq α] (m : List (α × β)) (a b : α)
    (v : β) :
    b ∈ (aset m a v).map Prod.fst ↔ b = a ∨ b ∈ m.map Prod.fst := by
  induction m with
  | nil => simp [aset]
  | cons p rest ih =>
      obtain ⟨k, w⟩ := p
      by_cases hka : k = a
      · subst hka
        simp [aset]
      · simp only [aset, if_neg hka, List.map_cons, List.mem_cons, ih]
        tauto

theorem nodup_keys_aset {α β : Type} [DecidableEq α] (m : List (α × β)) (a : α)
    (v : β) (h : (m.map Prod.fst).Nodup) :
    ((aset m a v).map Prod.fst).Nodup := by
  induction m with
  | nil => simp [aset]
  | cons p rest ih =>
      obtain ⟨k, w⟩ := p
      simp only [List.map_cons, List.nodup_cons] at h
      by_cases hka : k = a
      · subst hka
        simpa [aset] using h
      · simp only [aset, if_neg hka, List.map_cons, List.nodup_cons]
        refine ⟨fun hmem => ?_, ih h.2⟩
        rcases (mem_keys_aset rest a k v).1 hmem with heq | hmem2
        · exact hka heq
        · exact h.1 hmem2

theorem supply_aset_some (m : List (Address × Account)) (a : Address)
    (v w : Account) (h : alookup m a = some w) :
    ((aset m a v).map (fun p => p.2.balance)).sum + w.balance
      = (m.map (fun p => p.2.balance)).sum + v.balance := by
  induction m with
  | nil => simp [alookup] at h
  | cons p rest ih =>
      obtain ⟨k, u⟩ := p
      by_cases hka : k = a
      · simp only [alookup, if_pos hka] at h
        injection h with h
        subst h
        simp [aset, hka]
        omega
      · simp only [alookup, if_neg hka] at h
        simp only [aset, if_neg hka, List.map_cons, List.sum_cons]
        have := ih h
        omega

theorem supply_aset_none (m : List (Address × Account)) (a : Address)
    (v : Account) (h : alookup m a = none) :
    ((aset m a v).map (fun p => p.2.balance)).sum
      = (m.map (fun p => p.2.balance)).sum + v.balance := by
  induction m with
  | nil => simp [aset]
  | cons p rest ih =>
      obtain ⟨k, u⟩ := p
      by_cases hka : k = a
      · simp [alookup, if_pos hka] at h
      · simp only [alookup, if_neg hka] at h
        simp only [aset, if_neg hka, List.map_cons, List.sum_cons]
        have := ih h
        omega

theorem apply_transaction_eq_reject (l : Ledger) (tx : CTransaction)
    (h : alookup l.accounts tx.from_addr = none
       ∨ balanceOf l tx.from_addr < tx.amount + tx.gas_fee
       ∨ tx.nonce ≠ nonceOf l tx.from_addr) :
    apply_transaction l tx = (l, BridgeErrorCode.TransactionError) := by
  cases hf : alookup l.accounts tx.from_addr with
  | none => simp [apply_transaction, hf]
  | some sender =>
      have hbal : balanceOf l tx.from_addr = sender.balance := by
        simp [balanceOf, hf]
      have hnon : nonceOf l tx.from_addr = sender.nonce := by
        simp [nonceOf, hf]
      rcases h with h | h | h
      · rw [hf] at h
        exact absurd h (by simp)
      · rw [hbal] at h
        simp [apply_transaction, hf, h]
      · rw [hnon] at h
        by_cases hb : sender.balance < tx.amount + tx.gas_fee
        · simp [apply_transaction, hf, hb]
        · simp [apply_transaction, hf, hb, h]

theorem apply_transaction_success_cases (l : Ledger) (tx : CTransaction)
    (hacc : (apply_transaction l tx).2 = BridgeErrorCode.Success) :
    ∃ sender, alookup l.accounts tx.from_addr = some sender
      ∧ tx.amount + tx.gas_fee ≤ sender.balance
      ∧ tx.nonce = sender.nonce := by
  cases hf : alookup l.accounts tx.from_addr with
  | none => simp [apply_transaction, hf] at hacc
  | some sender =>
      by_cases hb : sender.balance < tx.amount + tx.gas_fee
      · simp [apply_transaction, hf, hb] at hacc
      · by_cases hn : tx.nonce = sender.nonce
        · exact ⟨sender, rfl, Nat.le_of_not_lt hb, hn⟩
        · simp [apply_transaction, hf, hb, hn] at hacc

theorem apply_transaction_success_result (l : Ledger) (tx : CTransaction)
    (sender : Account) (hf : alookup l.accounts tx.from_addr = some sender)
    (hle : tx.amount + tx.gas_fee ≤ sender.balance)
    (hn : tx.nonce = sender.nonce) :
    apply_transaction l tx =
      ({ l with
          accounts :=
            aset (aset l.accounts tx.from_addr
                ⟨sender.balance - (tx.amount + tx.gas_fee), sender.nonce + 1⟩)
              tx.to_addr
              ⟨((alookup (aset l.accounts tx.from_addr
                    ⟨sender.balance - (tx.amount + tx.gas_fee),
                     sender.nonce + 1⟩) tx.to_addr).getD ⟨0, 0⟩).balance
                  + tx.amount,
               ((alookup (aset l.accounts tx.from_addr
                    ⟨sender.balance - (tx.amount + tx.gas_fee),
                     sender.nonce + 1⟩) tx.to_addr).getD ⟨0, 0⟩).nonce⟩,
          pending := l.pending ++ [tx] },
       BridgeErrorCode.Success) := by
  have hb : ¬ sender.balance < tx.amount + tx.gas_fee := Nat.not_lt.2 hle
  simp [apply_transaction, hf, hb, hn]

/-- C1 (amended): for every transaction accepted by apply_transaction
(sultan_blockchain_add_transaction) with sender A (prior balance B, prior
nonce N), receiver C, amount a and gas fee f, and with C distinct from A:
balance(A) = B - a - f and balance(C) = old_balance(C) + a; in all cases
(self-transfers included) nonce(A) = N + 1, the fee is credited to no account
(every account other than A and C keeps its balance), and the total supply
decreases by exactly f. -/
theorem apply_transaction_success_effects (l : Ledger) (tx : CTransaction)
    (hacc : (apply_transaction l tx).2 = BridgeErrorCode.Success) :
    (tx.from_addr ≠ tx.to_addr →
        balanceOf (apply_transaction l tx).1 tx.from_addr
          = balanceOf l tx.from_addr - (tx.amount + tx.gas_fee)
      ∧ balanceOf (apply_transaction l tx).1 tx.to_addr
          = balanceOf l tx.to_addr + tx.amount)
    ∧ nonceOf (apply_transaction l tx).1 tx.from_addr
        = nonceOf l tx.from_addr + 1
    ∧ (∀ a, a ≠ tx.from_addr → a ≠ tx.to_addr →
        balanceOf (apply_transaction l tx).1 a = balanceOf l a)
    ∧ total_supply (apply_transaction l tx).1 + tx.gas_fee
        = total_supply l := by
  obtain ⟨sender, hf, hle, hn⟩ := apply_transaction_success_cases l tx hacc
  have hres := apply_transaction_success_result l tx sender hf hle hn
  refine ⟨fun hne => ⟨?_, ?_⟩, ?_, ?_, ?_⟩
  · rw [hres]
    simp only [balanceOf]
    rw [alookup_aset, if_neg (fun h => hne h.symm), alookup_aset, if_pos rfl]
    simp [balanceOf, hf]
  · rw [hres]
    simp only [balanceOf]
    rw [alookup_aset, if_pos rfl, alookup_aset, if_neg hne]
    cases hC : alookup l.accounts tx.to_addr <;> simp [balanceOf, hC]
  · rw [hres]
    simp only [nonceOf]
    rw [alookup_aset]
    by_cases hCA : tx.to_addr = tx.from_addr
    · rw [if_pos hCA, alookup_aset, if_pos hCA.symm]
      simp [nonceOf, hf]
    · rw [if_neg hCA, alookup_aset, if_pos rfl]
      simp [nonceOf, hf]
  · intro a ha hc
    rw [hres]
    simp only [balanceOf]
    rw [alookup_aset, if_neg (fun h => hc h.symm),
      alookup_aset, if_neg (fun h => ha h.symm)]
  · rw [hres]
    simp only [total_supply]
    have h1 := supply_aset_some l.accounts tx.from_addr
      ⟨sender.balance - (tx.amount + tx.gas_fee), sender.nonce + 1⟩ sender hf
    cases hC : alookup (aset l.accounts tx.from_addr
        ⟨sender.balance - (tx.amount + tx.gas_fee), sender.nonce + 1⟩)
        tx.to_addr with
    | some r =>
        have h2 := supply_aset_some (aset l.accounts tx.from_addr
            ⟨sender.balance - (tx.amount + tx.gas_fee), sender.nonce + 1⟩)
          tx.to_addr ⟨r.balance + tx.amount, r.nonce⟩ r hC
        simp only [Option.getD_some]
        simp at h1 h2 ⊢
        omega
    | none =>
        have h2 := supply_aset_none (aset l.accounts tx.from_addr
            ⟨sender.balance - (tx.amount + tx.gas_fee), sender.nonce + 1⟩)
          tx.to_addr ⟨0 + tx.amount, 0⟩ hC
        simp only [Option.getD_none]
        simp at h1 h2 ⊢
        omega

/-- C1 counterexample: the claim as stated fails on a self-transfer.  On the
one-account ledger where alice holds 10, the transaction alice→alice with
amount 3, gas fee 1 and nonce 0 is accepted, yet the receiver's post balance
is 9 = 10 - 3 - 1 + 3, not old_balance + amount = 13, and the sender's post
balance is likewise not B - a - f = 6. -/
theorem apply_transaction_claim_self_counterexample :
    (apply_transaction ledgerSelf txSelf).2 = BridgeErrorCode.Success
    ∧ ¬ (balanceOf (apply_transaction ledgerSelf txSelf).1 txSelf.to_addr
          = balanceOf ledgerSelf txSelf.to_addr + txSelf.amount)
    ∧ ¬ (balanceOf (apply_transaction ledgerSelf txSelf).1 txSelf.from_addr
          = balanceOf ledgerSelf txSelf.from_addr
            - (txSelf.amount + txSelf.gas_fee)) := by
  decide

/-- Witness for C1's amended theorem: the spec's concrete scenario (alice
1000 pays bob 0 an amount of 100 with gas fee 1) instantiates every
hypothesis. -/
theorem apply_transaction_success_effects_witness :
    (apply_transaction ledgerSample txSample).2 = BridgeErrorCode.Success
    ∧ ("alice" : String) ≠ "bob"
    ∧ (balanceOf (apply_transaction ledgerSample txSample).1 "alice"
          = balanceOf ledgerSample "alice" - (100 + 1)
      ∧ balanceOf (apply_transaction ledgerSample txSample).1 "bob"
          = balanceOf ledgerSample "bob" + 100
      ∧ nonceOf (apply_transaction ledgerSample txSample).1 "alice"
          = nonceOf ledgerSample "alice" + 1
      ∧ total_supply (apply_transaction ledgerSample txSample).1 + 1
          = total_supply ledgerSample) :=
  ⟨by decide, by decide,
    ((apply_transaction_success_effects ledgerSample txSample (by decide)).1
        (by decide)).1,
    ((apply_transaction_success_effects ledgerSample txSample (by decide)).1
        (by decide)).2,
    (apply_transaction_success_effects ledgerSample txSample (by decide)).2.1,
    (apply_transaction_success_effects ledgerSample txSample (by decide)).2.2.2⟩

/-- C2: if the sender does not exist, or the sender's balance is below
amount + gas_fee, or the transaction nonce differs from the sender's current
nonce, then apply_transaction (sultan_blockchain_add_transaction) fails with
TransactionError and returns the ledger unchanged: balances, nonces, the
pending pool and the chain are all exactly as before. -/
theorem apply_transaction_failure_atomic (l : Ledger) (tx : CTransaction)
    (h : alookup l.accounts tx.from_addr = none
       ∨ balanceOf l tx.from_addr < tx.amount + tx.gas_fee
       ∨ tx.nonce ≠ nonceOf l tx.from_addr) :
    apply_transaction l tx = (l, BridgeErrorCode.TransactionError) :=
  apply_transaction_eq_reject l tx h

/-- Witness for C2: a transaction with nonce 5 against alice's current
nonce 0 is rejected and the ledger is returned unchanged. -/
theorem apply_transaction_failure_atomic_witness :
    ((5 : Nat) ≠ nonceOf ledgerSample "alice")
    ∧ apply_transaction ledgerSample ⟨"alice", "bob", 100, 1, 0, 5, "sig"⟩
        = (ledgerSample, BridgeErrorCode.TransactionError) :=
  ⟨by decide,
   apply_transaction_failure_atomic ledgerSample
     ⟨"alice", "bob", 100, 1, 0, 5, "sig"⟩ (Or.inr (Or.inr (by decide)))⟩

/-- C3: init_account (sultan_blockchain_init_account) on the empty address
fails with InvalidParameter and leaves the ledger unchanged; on a non-empty
address it succeeds, sets the account's balance to the given initial balance
(creating the account when absent), and leaves the nonce of an already
existing account unchanged. -/
theorem init_account_spec (l : Ledger) (addr : Address) (bal : Nat) :
    (addr = "" →
        init_account l addr bal = (l, BridgeErrorCode.InvalidParameter))
    ∧ (addr ≠ "" →
        (init_account l addr bal).2 = BridgeErrorCode.Success
        ∧ balanceOf (init_account l addr bal).1 addr = bal
        ∧ alookup (init_account l addr bal).1.accounts addr ≠ none
        ∧ ∀ acct, alookup l.accounts addr = some acct →
            nonceOf (init_account l addr bal).1 addr = acct.nonce) := by
  constructor
  · intro h
    simp [init_account, h]
  · intro h
    cases hl : alookup l.accounts addr with
    | some acct =>
        refine ⟨by simp [init_account, h, hl], ?_, ?_, ?_⟩
        · simp [init_account, h, hl, balanceOf, alookup_aset]
        · simp [init_account, h, hl, alookup_aset]
        · intro acct2 h2
          cases h2
          simp [init_account, h, hl, nonceOf, alookup_aset]
    | none =>
        refine ⟨by simp [init_account, h, hl], ?_, ?_, ?_⟩
        · simp [init_account, h, hl, balanceOf, alookup_aset]
        · simp [init_account, h, hl, alookup_aset]
        · intro acct2 h2
          simp at h2

/-- Witness for C3: the empty address is refused, and initializing "a" with
balance 5 on the empty ledger makes its balance 5. -/
theorem init_account_spec_witness :
    init_account emptyLedger "" 5 = (emptyLedger, BridgeErrorCode.InvalidParameter)
    ∧ (("a" : String) ≠ ""
       ∧ balanceOf (init_account emptyLedger "a" 5).1 "a" = 5) :=
  ⟨(init_account_spec emptyLedger "" 5).1 rfl,
   by decide, ((init_account_spec emptyLedger "a" 5).2 (by decide)).2.1⟩

/-- C4: get_balance (sultan_blockchain_get_balance) on an address that was
never initialized and never credited (no account entry exists) returns
balance 0 with Success, and leaves the ledger unchanged. -/
theorem get_balance_absent (l : Ledger) (addr : Address)
    (h : alookup l.accounts addr = none) :
    get_balance l addr = (l, 0, BridgeErrorCode.Success) := by
  simp [get_balance, balanceOf, h]

/-- Witness for C4: reading the balance of "ghost" on the empty ledger. -/
theorem get_balance_absent_witness :
    alookup emptyLedger.accounts "ghost" = none
    ∧ get_balance emptyLedger "ghost" = (emptyLedger, 0, BridgeErrorCode.Success) :=
  ⟨by decide, get_balance_absent emptyLedger "ghost" (by decide)⟩

/-- C5: create_block (sultan_blockchain_create_block) on a ledger with a
non-empty pending pool succeeds, appends exactly one block whose hash is the
deterministic function block_hash of (previous hash, height, validator
address, ordered transaction hashes), increments the chain height by 1, and
leaves the pending pool empty. -/
theorem create_block_spec (l : Ledger) (v : Address) (h : l.pending ≠ []) :
    (create_block l v).2 = BridgeErrorCode.Success
    ∧ (create_block l v).1.chain
        = ⟨chain_height l, latest_hash l,
           block_hash (latest_hash l) (chain_height l) v (l.pending.map tx_hash),
           v, l.pending⟩ :: l.chain
    ∧ chain_height (create_block l v).1 = chain_height l + 1
    ∧ (create_block l v).1.pending = [] := by
  simp [create_block, h, chain_height]

/-- Witness for C5: sealing a block over a pool holding one transaction. -/
theorem create_block_spec_witness :
    (⟨[], [txSample], []⟩ : Ledger).pending ≠ []
    ∧ chain_height (create_block ⟨[], [txSample], []⟩ "alice").1
        = chain_height (⟨[], [txSample], []⟩ : Ledger) + 1
    ∧ (create_block ⟨[], [txSample], []⟩ "alice").1.pending = [] :=
  ⟨by decide,
   (create_block_spec ⟨[], [txSample], []⟩ "alice" (by decide)).2.2.1,
   (create_block_spec ⟨[], [txSample], []⟩ "alice" (by decide)).2.2.2⟩

/-- C10: the balance-sufficiency check of apply_transaction
(sultan_blockchain_add_transaction) does not wrap at 2^64: for uint64 amount
and gas fee whose mathematical sum exceeds 2^64 - 1, a sender whose balance
is below the exact sum is rejected (ledger unchanged) even when
(amount + gas_fee) mod 2^64 is at most the sender's balance. -/
theorem add_transaction_overflow_guard (l : Ledger) (tx : CTransaction)
    (h1 : tx.amount < 2 ^ 64) (h2 : tx.gas_fee < 2 ^ 64)
    (h3 : 2 ^ 64 ≤ tx.amount + tx.gas_fee)
    (h4 : (tx.amount + tx.gas_fee) % 2 ^ 64 ≤ balanceOf l tx.from_addr)
    (h5 : balanceOf l tx.from_addr < tx.amount + tx.gas_fee) :
    apply_transaction l tx = (l, BridgeErrorCode.TransactionError) :=
  apply_transaction_eq_reject l tx (Or.inr (Or.inl h5))

/-- Witness for C10: amount = gas_fee = 2^63 sum to exactly 2^64, which wraps
to 0 ≤ 1000 = alice's balance, yet the transaction is rejected. -/
theorem add_transaction_overflow_guard_witness :
    txBig.amount < 2 ^ 64
    ∧ txBig.gas_fee < 2 ^ 64
    ∧ 2 ^ 64 ≤ txBig.amount + txBig.gas_fee
    ∧ (txBig.amount + txBig.gas_fee) % 2 ^ 64 ≤ balanceOf ledgerSample txBig.from_addr
    ∧ balanceOf ledgerSample txBig.from_addr < txBig.amount + txBig.gas_fee
    ∧ apply_transaction ledgerSample txBig = (ledgerSample, BridgeErrorCode.TransactionError) :=
  ⟨by decide, by decide, by decide, by decide, by decide,
   add_transaction_overflow_guard ledgerSample txBig (by decide) (by decide)
     (by decide) (by decide) (by decide)⟩

/-- C6: select_proposer (sultan_consensus_select_proposer) on an unseeded
validator set (no validators) fails with ConsensusError, and on every
validator set it has no side effects: the set after the call is the set
before it. -/
theorem select_proposer_spec (vs : ValidatorSet) :
    (vs.validators = [] →
        select_proposer vs = (vs, none, BridgeErrorCode.ConsensusError))
    ∧ (select_proposer vs).1 = vs := by
  constructor
  · intro h
    simp [select_proposer, h]
  · obtain ⟨vals⟩ := vs
    cases vals <;> simp [select_proposer]

/-- Witness for C6: the freshly created (unseeded) consensus engine. -/
theorem select_proposer_spec_witness :
    emptyValidatorSet.validators = []
    ∧ select_proposer emptyValidatorSet
        = (emptyValidatorSet, none, BridgeErrorCode.ConsensusError) :=
  ⟨rfl, (select_proposer_spec emptyValidatorSet).1 rfl⟩

/-- C7: add_validator (sultan_consensus_add_validator) with stake 0 or an
empty address fails with InvalidParameter and leaves the set unchanged; with
a non-empty address and positive stake it succeeds, binds the address to the
given stake (inserting when absent, updating when present), leaves every
other address's binding unchanged, and preserves uniqueness of the address
keys. -/
theorem add_validator_spec (vs : ValidatorSet) (addr : Address) (stake : Nat) :
    ((addr = "" ∨ stake = 0) →
        add_validator vs addr stake = (vs, BridgeErrorCode.InvalidParameter))
    ∧ (addr ≠ "" → stake ≠ 0 →
        (add_validator vs addr stake).2 = BridgeErrorCode.Success
        ∧ alookup (add_validator vs addr stake).1.validators addr = some stake
        ∧ (∀ a, a ≠ addr →
            alookup (add_validator vs addr stake).1.validators a
              = alookup vs.validators a)
        ∧ ((vs.validators.map Prod.fst).Nodup →
            ((add_validator vs addr stake).1.validators.map Prod.fst).Nodup)) := by
  constructor
  · intro h
    simp only [add_validator, if_pos h]
  · intro h1 h2
    have hcond : ¬(addr = "" ∨ stake = 0) := by tauto
    refine ⟨?_, ?_, ?_, ?_⟩
    · simp [add_validator, hcond]
    · simp [add_validator, hcond, alookup_aset]
    · intro a ha
      simp [add_validator, hcond, alookup_aset, Ne.symm ha]
    · intro hnd
      have := nodup_keys_aset vs.validators addr stake hnd
      simpa [add_validator, hcond] using this

/-- Witness for C7: the empty address is refused; inserting validator "v1"
with stake 70 into the fresh set binds it. -/
theorem add_validator_spec_witness :
    add_validator emptyValidatorSet "" 70
        = (emptyValidatorSet, BridgeErrorCode.InvalidParameter)
    ∧ (("v1" : String) ≠ "" ∧ (70 : Nat) ≠ 0
       ∧ alookup (add_validator emptyValidatorSet "v1" 70).1.validators "v1"
           = some 70) :=
  ⟨(add_validator_spec emptyValidatorSet "" 70).1 (Or.inl rfl),
   by decide, by decide,
   ((add_validator_spec emptyValidatorSet "v1" 70).2 (by decide) (by decide)).2.1⟩

theorem apply_transaction_accounts_congr (l1 l2 : Ledger) (tx : CTransaction)
    (h : ∀ a, alookup l1.accounts a = alookup l2.accounts a) :
    ∀ a, alookup (apply_transaction l1 tx).1.accounts a
        = alookup (apply_transaction l2 tx).1.accounts a := by
  cases hf1 : alookup l1.accounts tx.from_addr with
  | none =>
      have hf2 : alookup l2.accounts tx.from_addr = none := by
        rw [← h tx.from_addr]; exact hf1
      simp only [apply_transaction, hf1, hf2]
      exact h
  | some sender =>
      have hf2 : alookup l2.accounts tx.from_addr = some sender := by
        rw [← h tx.from_addr]; exact hf1
      by_cases hb : sender.balance < tx.amount + tx.gas_fee
      · simp only [apply_transaction, hf1, hf2, if_pos hb]
        exact h
      · by_cases hn : tx.nonce ≠ sender.nonce
        · simp only [apply_transaction, hf1, hf2, if_neg hb, if_pos hn]
          exact h
        · have hn2 : tx.nonce = sender.nonce := not_not.1 hn
          intro a
          have hres1 := apply_transaction_success_result l1 tx sender hf1
            (Nat.le_of_not_lt hb) hn2
          have hres2 := apply_transaction_success_result l2 tx sender hf2
            (Nat.le_of_not_lt hb) hn2
          rw [hres1, hres2]
          dsimp only
          simp only [alookup_aset, h]

/-- C9: two-run determinism of apply_transaction
(sultan_blockchain_add_transaction): applying the same transaction sequence
to two ledgers whose account maps agree on every address yields resulting
ledgers with equal balances and equal nonces for every address. -/
theorem apply_sequence_deterministic (l1 l2 : Ledger) (txs : List CTransaction)
    (h : ∀ a, alookup l1.accounts a = alookup l2.accounts a) :
    ∀ a, balanceOf (apply_sequence l1 txs) a = balanceOf (apply_sequence l2 txs) a
       ∧ nonceOf (apply_sequence l1 txs) a = nonceOf (apply_sequence l2 txs) a := by
  have key : ∀ (ts : List CTransaction) (s1 s2 : Ledger),
      (∀ a, alookup s1.accounts a = alookup s2.accounts a) →
      ∀ a, alookup (apply_sequence s1 ts).accounts a
          = alookup (apply_sequence s2 ts).accounts a := by
    intro ts
    induction ts with
    | nil => intro s1 s2 hh a; exact hh a
    | cons tx rest ih =>
        intro s1 s2 hh a
        exact ih _ _ (apply_transaction_accounts_congr s1 s2 tx hh) a
  intro a
  have hk := key txs l1 l2 h a
  constructor
  · simp only [balanceOf]
    rw [hk]
  · simp only [nonceOf]
    rw [hk]

/-- Witness for C9: two account maps listing alice (5) and bob (7) in
different orders agree pointwise, and the runs agree on alice's balance. -/
theorem apply_sequence_deterministic_witness :
    balanceOf (apply_sequence ⟨[("alice", ⟨5, 0⟩), ("bob", ⟨7, 0⟩)], [], []⟩
        [txSample]) "alice"
      = balanceOf (apply_sequence ⟨[("bob", ⟨7, 0⟩), ("alice", ⟨5, 0⟩)], [], []⟩
        [txSample]) "alice" := by
  have hpw : ∀ a,
      alookup (Ledger.mk [("alice", ⟨5, 0⟩), ("bob", ⟨7, 0⟩)] [] []).accounts a
      = alookup (Ledger.mk [("bob", ⟨7, 0⟩), ("alice", ⟨5, 0⟩)] [] []).accounts a := by
    intro a
    by_cases h1 : "alice" = a
    · subst h1
      decide
    · by_cases h2 : "bob" = a
      · subst h2
        decide
      · simp [alookup, h1, h2]
  exact (apply_sequence_deterministic _ _ [txSample] hpw "alice").1

theorem reg_inv_init : reg_inv initRegistry := by
  refine ⟨Nat.one_pos, ?_, ?_⟩ <;> simp [initRegistry, alookup]

theorem reg_inv_new (r : Registry) (inst : BridgeInstance) (h : reg_inv r) :
    reg_inv (reg_new r inst).1 := by
  obtain ⟨h0, hlt, hnd⟩ := h
  refine ⟨?_, ?_, ?_⟩
  · simp only [reg_new]
    omega
  · intro k hk
    simp only [reg_new, alookup] at hk ⊢
    by_cases hnk : r.next_handle = k
    · omega
    · rw [if_neg hnk] at hk
      have := hlt k hk
      omega
  · simp only [reg_new, List.map_cons]
    refine List.nodup_cons.2 ⟨?_, hnd⟩
    intro hmem
    have hne : alookup r.live r.next_handle ≠ none := fun heq =>
      ((alookup_eq_none_iff r.live r.next_handle).1 heq) hmem
    exact absurd (hlt _ hne) (Nat.lt_irrefl _)

theorem reg_inv_destroy (r : Registry) (hdl : Nat) (h : reg_inv r) :
    reg_inv (reg_destroy r hdl).1 := by
  obtain ⟨h0, hlt, hnd⟩ := h
  cases hl : alookup r.live hdl with
  | none => exact ⟨by simpa [reg_destroy, hl] using h0,
      by simpa [reg_destroy, hl] using hlt,
      by simpa [reg_destroy, hl] using hnd⟩
  | some inst =>
      refine ⟨by simpa [reg_destroy, hl] using h0, ?_, ?_⟩
      · intro k hk
        simp only [reg_destroy, hl] at hk ⊢
        exact hlt k (fun heq => hk (alookup_aremove_none r.live hdl k heq))
      · simp only [reg_destroy, hl]
        exact hnd.sublist ((aremove_sublist r.live hdl).map Prod.fst)

theorem reg_inv_step (r : Registry) (op : RegOp) (h : reg_inv r) :
    reg_inv (reg_step r op).1 := by
  cases op with
  | newBlockchain => exact reg_inv_new r _ h
  | newConsensus => exact reg_inv_new r _ h
  | destroy hdl => exact reg_inv_destroy r hdl h
  | useHandle hdl => exact h

theorem reg_inv_run (r : Registry) (ops : List RegOp) (h : reg_inv r) :
    reg_inv (reg_run r ops) := by
  induction ops generalizing r with
  | nil => exact h
  | cons op rest ih => exact ih _ (reg_inv_step r op h)

theorem handle_dead_new (r : Registry) (inst : BridgeInstance) (hdl : Nat)
    (hd : handle_dead r hdl) : handle_dead (reg_new r inst).1 hdl := by
  obtain ⟨hnone, hlt⟩ := hd
  refine ⟨?_, ?_⟩
  · simp only [reg_new, alookup]
    rw [if_neg (by omega : ¬ r.next_handle = hdl)]
    exact hnone
  · simp only [reg_new]
    omega

theorem handle_dead_step (r : Registry) (op : RegOp) (hdl : Nat)
    (hd : handle_dead r hdl) : handle_dead (reg_step r op).1 hdl := by
  cases op with
  | newBlockchain => exact handle_dead_new r _ hdl hd
  | newConsensus => exact handle_dead_new r _ hdl hd
  | destroy g =>
      obtain ⟨hnone, hlt⟩ := hd
      cases hg : alookup r.live g with
      | none => exact ⟨by simpa [reg_step, reg_destroy, hg] using hnone,
          by simpa [reg_step, reg_destroy, hg] using hlt⟩
      | some inst =>
          refine ⟨?_, ?_⟩
          · simp only [reg_step, reg_destroy, hg]
            exact alookup_aremove_none r.live g hdl hnone
          · simpa [reg_step, reg_destroy, hg] using hlt
  | useHandle g => exact hd

theorem handle_dead_run (r : Registry) (ops : List RegOp) (hdl : Nat)
    (hd : handle_dead r hdl) : handle_dead (reg_run r ops) hdl := by
  induction ops generalizing r with
  | nil => exact hd
  | cons op rest ih => exact ih _ (handle_dead_step r op hdl hd)

theorem new_handles_lb (ops : List RegOp) : ∀ (r : Registry) (h : Nat),
    h ∈ new_handles r ops → r.next_handle ≤ h := by
  induction ops with
  | nil =>
      intro r h hm
      simp [new_handles] at hm
  | cons op rest ih =>
      intro r h hm
      cases op with
      | newBlockchain =>
          simp only [new_handles, reg_step, reg_new, List.mem_cons] at hm
          rcases hm with rfl | hm2
          · exact Nat.le_refl _
          · have := ih _ _ hm2
            simp only [reg_new] at this
            omega
      | newConsensus =>
          simp only [new_handles, reg_step, reg_new, List.mem_cons] at hm
          rcases hm with rfl | hm2
          · exact Nat.le_refl _
          · have := ih _ _ hm2
            simp only [reg_new] at this
            omega
      | destroy g =>
          simp only [new_handles, reg_step] at hm
          have := ih _ _ hm
          cases hg : alookup r.live g <;> simp [reg_destroy, hg] at this <;> omega
      | useHandle g =>
          simp only [new_handles, reg_step] at hm
          exact ih _ _ hm

theorem new_handles_sorted (ops : List RegOp) : ∀ r : Registry,
    (new_handles r ops).Pairwise (fun a b => a < b) := by
  induction ops with
  | nil =>
      intro r
      simp [new_handles]
  | cons op rest ih =>
      intro r
      cases op with
      | newBlockchain =>
          simp only [new_handles, reg_step, reg_new]
          refine List.pairwise_cons.2 ⟨?_, ih _⟩
          intro h hm
          have := new_handles_lb rest _ h hm
          simp only at this
          omega
      | newConsensus =>
          simp only [new_handles, reg_step, reg_new]
          refine List.pairwise_cons.2 ⟨?_, ih _⟩
          intro h hm
          have := new_handles_lb rest _ h hm
          simp only at this
          omega
      | destroy g =>
          simp only [new_handles, reg_step]
          exact ih _
      | useHandle g =>
          simp only [new_handles, reg_step]
          exact ih _

/-- C8: along any sequence of registry operations starting from the fresh
registry, the handles returned by the allocating calls (sultan_blockchain_new,
sultan_consensus_new) are strictly increasing in call order — so no handle is
ever returned twice — and every one is positive (0 is reserved for failure);
and once destroy(h) has succeeded, after any further sequence of operations
both destroy(h) and any other operation resolving h fail with
InvalidParameter and leave the registry unchanged. -/
theorem sultan_handle_lifecycle (ops : List RegOp) :
    ((new_handles initRegistry ops).Pairwise (fun a b => a < b)
      ∧ ∀ h, h ∈ new_handles initRegistry ops → 0 < h)
    ∧ ∀ (pre post : List RegOp) (h : Nat),
        (reg_destroy (reg_run initRegistry pre) h).2 = BridgeErrorCode.Success →
        reg_step (reg_run (reg_destroy (reg_run initRegistry pre) h).1 post)
            (RegOp.destroy h)
          = (reg_run (reg_destroy (reg_run initRegistry pre) h).1 post, none,
             BridgeErrorCode.InvalidParameter)
        ∧ reg_step (reg_run (reg_destroy (reg_run initRegistry pre) h).1 post)
            (RegOp.useHandle h)
          = (reg_run (reg_destroy (reg_run initRegistry pre) h).1 post, none,
             BridgeErrorCode.InvalidParameter) := by
  constructor
  · refine ⟨new_handles_sorted ops initRegistry, ?_⟩
    intro h hm
    have hlb := new_handles_lb ops initRegistry h hm
    simp only [initRegistry] at hlb
    omega
  · intro pre post h hsucc
    have hinv := reg_inv_run initRegistry pre reg_inv_init
    have hlive : alookup (reg_run initRegistry pre).live h ≠ none := by
      intro heq
      rw [reg_destroy] at hsucc
      rw [heq] at hsucc
      exact absurd hsucc (by simp)
    have hdead1 : handle_dead (reg_destroy (reg_run initRegistry pre) h).1 h := by
      cases hl : alookup (reg_run initRegistry pre).live h with
      | none => exact absurd hl hlive
      | some inst =>
          constructor
          · simp only [reg_destroy, hl]
            exact alookup_aremove_self _ h hinv.2.2
          · simp only [reg_destroy, hl]
            exact hinv.2.1 h hlive
    have hdead2 := handle_dead_run _ post h hdead1
    obtain ⟨hnone2, hlt2⟩ := hdead2
    set r2 := reg_run (reg_destroy (reg_run initRegistry pre) h).1 post with hr2
    constructor
    · simp [reg_step, reg_destroy, hnone2]
    · simp [reg_step, reg_resolve, hnone2]

/-- Witness for C8: create a blockchain handle (1), destroy it, create a
consensus engine, then both destroy(1) and any operation on handle 1 fail
with InvalidParameter; and handle 1 is among the returned handles, all
positive. -/
theorem sultan_handle_lifecycle_witness :
    (1 ∈ new_handles initRegistry [RegOp.newBlockchain, RegOp.newConsensus]
      ∧ 0 < 1)
    ∧ ((reg_destroy (reg_run initRegistry [RegOp.newBlockchain]) 1).2
         = BridgeErrorCode.Success
      ∧ reg_step (reg_run (reg_destroy
            (reg_run initRegistry [RegOp.newBlockchain]) 1).1
            [RegOp.newConsensus]) (RegOp.destroy 1)
        = (reg_run (reg_destroy
            (reg_run initRegistry [RegOp.newBlockchain]) 1).1
            [RegOp.newConsensus], none, BridgeErrorCode.InvalidParameter)) :=
  ⟨⟨by decide,
    (sultan_handle_lifecycle [RegOp.newBlockchain, RegOp.newConsensus]).1.2 1
      (by decide)⟩,
   ⟨by rfl,
    ((sultan_handle_lifecycle []).2 [RegOp.newBlockchain] [RegOp.newConsensus]
      1 (by rfl)).1⟩⟩
